import Mathlib

/-!
# Verification of the holiday-scene animation core

Shallow embedding, in Lean 4, of the per-frame animation and state
machines of the Christmas-tree scene: the damped interpolation engine of
`InstancedShape` (`useFrame`), the hysteresis gesture mapper of
`HandTracker` (`predictWebcam`), the wrist-to-rotation mapping
(`App.handleHandMove`), the procedural placement generator
(`InstancedShape` target `useMemo`), and the snow particle simulator
(`SnowSystem`).  Real-valued quantities are modelled over `ℝ` (or `ℚ`
where exact decidable arithmetic is convenient); the JS `Math.random()`
draws are passed in as explicit parameters in `[0,1)`.
-/

namespace ChristmasTree

/-- The scene's two discrete interaction modes (`types.ts`:
`enum InteractionState { Tree = 0, Exploded = 1 }`). -/
inductive InteractionState where
  | Tree : InteractionState
  | Exploded : InteractionState
deriving DecidableEq, Repr

/-! ## Damped interpolation engine (`InstancedShape` useFrame, lines 250-278)

The source computes `const lambda = 4 * delta` and then, for every
coordinate of every instance, `n = c + (t - c) * lambda`. -/

/-- The per-frame lerp factor: `const lambda = 4 * delta`. -/
def dampFactor (delta : ℝ) : ℝ := 4 * delta

/-- One coordinate update of the manual lerp:
`nx = cx + (tx - cx) * lambda`. -/
def dampStep (c t f : ℝ) : ℝ := c + (t - c) * f

/-- `n`-fold repetition of `dampStep` toward a fixed target `t` with a
fixed per-frame factor `f`. -/
def dampIter (t f c : ℝ) : ℕ → ℝ
  | 0 => c
  | n + 1 => dampStep (dampIter t f c n) t f

/-- Target-buffer selection (`useFrame`): `let targetArray = targets.tree;
if (mode === InteractionState.Exploded) targetArray = targets.explode;`. -/
def activeTargets (mode : InteractionState) (tree explode : List ℝ) : List ℝ :=
  match mode with
  | InteractionState.Tree => tree
  | InteractionState.Exploded => explode

/-- One frame of the interpolation engine over the flat position buffers:
every entry of `current` moves toward the same-index entry of the active
target buffer by the manual lerp with factor `4 * delta`. -/
def frameUpdate (mode : InteractionState) (tree explode current : List ℝ)
    (delta : ℝ) : List ℝ :=
  List.zipWith (fun c t => dampStep c t (dampFactor delta)) current
    (activeTargets mode tree explode)

/-- Modelled from the spec: the spec's claimed update formula
`current += (target - current) * min(1, lambda * deltaTime)`, for
comparison with the source's `dampStep`/`dampFactor` (which has no
`min(1, ·)` clamp). -/
def specDampStep (c t delta : ℝ) : ℝ := c + (t - c) * min 1 (4 * delta)

/-! ## Gesture hysteresis mapper (`HandTracker` predictWebcam, lines 85-97)

`smoothedRatio` starts at `1.2`, `isOpenState` at `false`; each detected
frame smooths the raw ratio with `alpha = 0.25` and runs the dual
threshold state machine, emitting `onGestureChange(true/false)` only on
transition edges.  Ratios are modelled over `ℚ` for exact arithmetic. -/

/-- Mutable state of the tracker: the smoothed ratio and the open flag. -/
structure HystState where
  ratio : ℚ
  isOpen : Bool
deriving DecidableEq, Repr

/-- Initial tracker state: `smoothedRatio = 1.2`, `isOpenState = false`. -/
def hystInit : HystState := ⟨1.2, false⟩

/-- Exponential smoothing of the hand-open ratio with `alpha = 0.25`:
`smoothedRatio += (rawRatio - smoothedRatio) * alpha`. -/
def smoothRatio (s raw : ℚ) : ℚ := s + (raw - s) * 0.25

/-- One detection frame of the hysteresis machine: smooth the raw ratio,
then fire `Open` (`some true`) on the `> 1.35` upper threshold while
closed, `Close` (`some false`) on the `< 1.25` lower threshold while
open, and emit nothing (`none`) otherwise. -/
def hystStep (s : HystState) (raw : ℚ) : HystState × Option Bool :=
  let sm := smoothRatio s.ratio raw
  if s.isOpen = false ∧ 1.35 < sm then (⟨sm, true⟩, some true)
  else if s.isOpen = true ∧ sm < 1.25 then (⟨sm, false⟩, some false)
  else (⟨sm, s.isOpen⟩, none)

/-- Run the hysteresis machine over a list of raw ratios, collecting the
emitted gesture events in order. -/
def hystRun (s : HystState) : List ℚ → HystState × List Bool
  | [] => (s, [])
  | r :: rs =>
      let p := hystStep s r
      let q := hystRun p.1 rs
      (q.1, p.2.toList ++ q.2)

/-- The events emitted from the initial tracker state. -/
def hystEvents (rs : List ℚ) : List Bool := (hystRun hystInit rs).2

/-! ## Wrist-x to rotation speed (`App.tsx` handleHandMove, lines 26-54) -/

/-- The joystick mapping of `handleHandMove`: dead zone
`[CENTER - DEADZONE, CENTER + DEADZONE] = [0.45, 0.55]`, linear gain
`SENSITIVITY = 6.0` outside it, left side negated. -/
def handleHandMove (x : ℚ) : ℚ :=
  if x < 0.5 - 0.05 then -((0.5 - 0.05 - x) * 6.0)
  else if 0.5 + 0.05 < x then (x - (0.5 + 0.05)) * 6.0
  else 0

/-! ## Procedural placement generator (`InstancedShape` targets useMemo,
lines 157-206)

The loop body for instance `i` of `count`; the `Math.random()` jitter
draws are the parameters `jx jz : ℝ` (in `[0,1)`), the explosion radius
draw is `uR`. -/

/-- Tree formation height of instance `i`: `y = (i / count) * 10 - 5`
(exact rational value of the source expression). -/
def treeY (count i : ℕ) : ℚ := ((i : ℚ) / (count : ℚ)) * 10 - 5

/-- Normalised level `(y + 5) / 10` of instance `i`. -/
def treeLevel (count i : ℕ) : ℚ := (treeY count i + 5) / 10

/-- Cone radius of instance `i`: `3.5 * (1 - level) + 0.2`. -/
def treeRadius (count i : ℕ) : ℚ := 3.5 * (1 - treeLevel count i) + 0.2

/-- Jitter of one axis: `(Math.random() - 0.5) * 0.3` with draw `u`. -/
def treeJitter (u : ℚ) : ℚ := (u - 0.5) * 0.3

/-- Tree-formation target of instance `i` (golden-angle spiral cone with
per-axis jitter on x and z). -/
noncomputable def treeTargetPos (count i : ℕ) (jx jz : ℚ) : ℝ × ℝ × ℝ :=
  ((treeRadius count i : ℝ) * Real.cos ((i : ℝ) * 2.39996) + (treeJitter jx : ℝ),
   (treeY count i : ℝ),
   (treeRadius count i : ℝ) * Real.sin ((i : ℝ) * 2.39996) + (treeJitter jz : ℝ))

/-- Explosion-formation polar angle:
`phi = acos(-1 + (2 * i) / count)`. -/
noncomputable def explodePhi (count i : ℕ) : ℝ := Real.arccos (-1 + (2 * (i : ℝ)) / (count : ℝ))

/-- Explosion-formation target of instance `i`: golden spiral on a sphere
pushed out to radius `15 + Math.random() * 10` (draw `uR`). -/
noncomputable def explodeTargetPos (count i : ℕ) (uR : ℝ) : ℝ × ℝ × ℝ :=
  ((15 + uR * 10) * Real.cos (Real.sqrt ((count : ℝ) * Real.pi) * explodePhi count i) *
      Real.sin (explodePhi count i),
   (15 + uR * 10) * Real.sin (Real.sqrt ((count : ℝ) * Real.pi) * explodePhi count i) *
      Real.sin (explodePhi count i),
   (15 + uR * 10) * Real.cos (explodePhi count i))

/-- The full tree target buffer: the loop `for (i = 0; i < count; i++)`
writing one position per instance. -/
noncomputable def treeTargets (count : ℕ) (jx jz : ℕ → ℚ) : List (ℝ × ℝ × ℝ) :=
  (List.range count).map fun i => treeTargetPos count i (jx i) (jz i)

/-- The full explosion target buffer. -/
noncomputable def explodeTargets (count : ℕ) (uR : ℕ → ℝ) : List (ℝ × ℝ × ℝ) :=
  (List.range count).map fun i => explodeTargetPos count i (uR i)

/-! ## Snow particle simulator (`SnowSystem`, lines 141-293)

Data layout `[x, y, z, velocityY, wobblePhase, state]` with
`state: 0 = falling, 1 = landed`, modelled as a structure; the
`Math.random()` draws of `resetParticle` are the fields of `SnowRand`. -/

/-- One snow particle record. -/
structure SnowParticle where
  x : ℝ
  y : ℝ
  z : ℝ
  vy : ℝ
  phase : ℝ
  landed : Bool

/-- The five `Math.random()` draws consumed by one `resetParticle` call,
each in `[0, 1)`. -/
structure SnowRand where
  u1 : ℝ
  u2 : ℝ
  u3 : ℝ
  u4 : ℝ
  u5 : ℝ

/-- `resetParticle(data, i, fullRandomY)`: respawn the particle in place
with a fresh circularly distributed horizontal position of radius
`sqrt(random) * 45`, altitude `random * 40 + 5` (full-random) or
`30 + random * 15` (top-spawn), fall speed `0.01 + random * 0.03`, fresh
wobble phase, and state reset to falling. -/
noncomputable def resetParticle (fullRandomY : Bool) (u : SnowRand) : SnowParticle :=
  { x := Real.sqrt u.u1 * 45 * Real.cos (u.u2 * (Real.pi * 2))
    y := if fullRandomY then u.u3 * 40 + 5 else 30 + u.u3 * 15
    z := Real.sqrt u.u1 * 45 * Real.sin (u.u2 * (Real.pi * 2))
    vy := 0.01 + u.u4 * 0.03
    phase := u.u5 * (Real.pi * 2)
    landed := false }

/-- Wobbled x position of a falling particle:
`particles[i6] += Math.sin(time + phase) * 0.005`. -/
noncomputable def wobbleX (p : SnowParticle) (time : ℝ) : ℝ :=
  p.x + Real.sin (time + p.phase) * 0.005

/-- Wobbled z position of a falling particle:
`particles[i6+2] += Math.cos(time * 0.8 + phase) * 0.005`. -/
noncomputable def wobbleZ (p : SnowParticle) (time : ℝ) : ℝ :=
  p.z + Real.cos (time * 0.8 + p.phase) * 0.005

/-- The per-particle randomized local ground:
`groundLevel + Math.random() * accumulationHeight` with
`groundLevel = -5.0`, `accumulationHeight = 0.2` and draw `uGround`. -/
def localGround (uGround : ℝ) : ℝ := -5 + uGround * 0.2

/-- Tree-mode step of one falling particle: apply gravity
(`y -= velocityY * (delta * 60)`) and lateral wobble, then ground
detection against the local ground: land (clamp y, state 1) when within
the accumulation radius `4.5` of the centre, otherwise respawn at the
top via `resetParticle(..., false)` with the fresh draws `fresh`. -/
noncomputable def fallStep (p : SnowParticle) (time delta uGround : ℝ) (fresh : SnowRand) :
    SnowParticle :=
  let y1 := p.y - p.vy * (delta * 60)
  let x1 := wobbleX p time
  let z1 := wobbleZ p time
  if y1 ≤ localGround uGround then
    if x1 * x1 + z1 * z1 < 4.5 * 4.5 then
      { p with x := x1, y := localGround uGround, z := z1, landed := true }
    else resetParticle false fresh
  else { p with x := x1, y := y1, z := z1 }

/-- Tree-mode step of one particle: falling particles fall and may land
or recycle; landed particles melt back to the sky with probability
`0.001` per frame (draw `uMelt`). -/
noncomputable def treeStep (p : SnowParticle) (time delta uGround uMelt : ℝ)
    (fresh : SnowRand) : SnowParticle :=
  if p.landed = false then fallStep p time delta uGround fresh
  else if uMelt < 0.001 then resetParticle false fresh
  else p

/-- Exploded-mode step of one particle: push it radially away from the
centre at speed `15 * delta` along its direction normalised by
`len = sqrt(x*x + y*y + z*z) + 0.01`, add per-axis turbulence
`(Math.random() - 0.5) * 0.2` (draws `t1 t2 t3`), and force the state
back to falling. -/
noncomputable def explodedStep (p : SnowParticle) (delta t1 t2 t3 : ℝ) : SnowParticle :=
  let len := Real.sqrt (p.x * p.x + p.y * p.y + p.z * p.z) + 0.01
  { x := p.x + p.x / len * (15 * delta) + (t1 - 0.5) * 0.2
    y := p.y + p.y / len * (15 * delta) + (t2 - 0.5) * 0.2
    z := p.z + p.z / len * (15 * delta) + (t3 - 0.5) * 0.2
    vy := p.vy
    phase := p.phase
    landed := false }

/-- The mode-transition effect (`useEffect` on `mode`): when the previous
mode was `Exploded` and the new mode is `Tree`, every particle `i` of the
buffer is reset via `resetParticle(particles, i, false)`; otherwise the
buffer is untouched. -/
noncomputable def modeTransition (prevMode mode : InteractionState)
    (particles : List SnowParticle) (us : ℕ → SnowRand) : List SnowParticle :=
  if prevMode = InteractionState.Exploded ∧ mode = InteractionState.Tree then
    (List.range particles.length).map fun i => resetParticle false (us i)
  else particles

/-! ## Helper lemmas -/

lemma dampStep_sub (c t f : ℝ) : dampStep c t f - t = (1 - f) * (c - t) := by
  simp only [dampStep]; ring

lemma dampIter_sub (t f c : ℝ) (n : ℕ) :
    dampIter t f c n - t = (1 - f) ^ n * (c - t) := by
  induction n with
  | zero => simp [dampIter]
  | succ n ih =>
      simp only [dampIter, dampStep_sub, ih, pow_succ]
      ring

lemma zipWith_getElem? (f : ℝ → ℝ → ℝ) :
    ∀ (as bs : List ℝ) (i : ℕ) (a b : ℝ),
      as[i]? = some a → bs[i]? = some b →
      (List.zipWith f as bs)[i]? = some (f a b) := by
  intro as
  induction as with
  | nil => intro bs i a b h; simp at h
  | cons x xs ih =>
      intro bs i a b ha hb
      cases bs with
      | nil => simp at hb
      | cons y ys =>
          cases i with
          | zero =>
              simp at ha hb
              simp [List.zipWith, ha, hb]
          | succ n =>
              simp only [List.zipWith, List.getElem?_cons_succ] at ha hb ⊢
              exact ih ys n a b ha hb

lemma smoothRatio_le (s r b : ℚ) (hs : s ≤ b) (hr : r ≤ b) :
    smoothRatio s r ≤ b := by
  unfold smoothRatio; linarith

lemma smoothRatio_gt (s r b : ℚ) (hs : b < s) (hr : b < r) :
    b < smoothRatio s r := by
  unfold smoothRatio; linarith

lemma hystStep_none (s : HystState) (raw : ℚ)
    (h1 : ¬(s.isOpen = false ∧ 1.35 < smoothRatio s.ratio raw))
    (h2 : ¬(s.isOpen = true ∧ smoothRatio s.ratio raw < 1.25)) :
    hystStep s raw = (⟨smoothRatio s.ratio raw, s.isOpen⟩, none) := by
  unfold hystStep
  rw [if_neg h1, if_neg h2]

lemma hystStep_open (s : HystState) (raw : ℚ)
    (h1 : s.isOpen = false ∧ 1.35 < smoothRatio s.ratio raw) :
    hystStep s raw = (⟨smoothRatio s.ratio raw, true⟩, some true) := by
  unfold hystStep
  rw [if_pos h1]

lemma hystRun_cons (s : HystState) (r : ℚ) (rs : List ℚ) :
    (hystRun s (r :: rs)).2 =
      (hystStep s r).2.toList ++ (hystRun (hystStep s r).1 rs).2 := rfl

lemma hystRun_cons_fst (s : HystState) (r : ℚ) (rs : List ℚ) :
    (hystRun s (r :: rs)).1 = (hystRun (hystStep s r).1 rs).1 := rfl

lemma hystRun_open_no_events :
    ∀ (xs : List ℚ) (s : HystState), s.isOpen = true → 1.25 < s.ratio →
      (∀ a ∈ xs, 1.35 < a) → (hystRun s xs).2 = [] := by
  intro xs
  induction xs with
  | nil => intro s _ _ _; rfl
  | cons a tl ih =>
      intro s hopen hratio hall
      have ha : (1.35:ℚ) < a := hall a (List.mem_cons_self a tl)
      have hsm : (1.25:ℚ) < smoothRatio s.ratio a :=
        smoothRatio_gt _ _ _ hratio (by linarith)
      have hstep : hystStep s a = (⟨smoothRatio s.ratio a, s.isOpen⟩, none) := by
        apply hystStep_none
        · intro h; rw [hopen] at h; exact Bool.noConfusion h.1
        · intro h; exact absurd h.2 (not_lt.mpr (le_of_lt hsm))
      rw [hystRun_cons, hstep]
      simp only [Option.toList_none, List.nil_append]
      exact ih ⟨smoothRatio s.ratio a, s.isOpen⟩ hopen hsm
        (fun b hb => hall b (List.mem_cons_of_mem a hb))

lemma hystRun_closed_no_events :
    ∀ (xs : List ℚ) (s : HystState), s.isOpen = false → s.ratio ≤ 1.35 →
      (∀ a ∈ xs, a ≤ 1.35) →
      (hystRun s xs).2 = [] ∧ (hystRun s xs).1.isOpen = false ∧
        (hystRun s xs).1.ratio ≤ 1.35 := by
  intro xs
  induction xs with
  | nil => intro s hopen hratio _; exact ⟨rfl, hopen, hratio⟩
  | cons a tl ih =>
      intro s hopen hratio hall
      have ha : a ≤ (1.35:ℚ) := hall a (List.mem_cons_self a tl)
      have hsm : smoothRatio s.ratio a ≤ 1.35 := smoothRatio_le _ _ _ hratio ha
      have hstep : hystStep s a = (⟨smoothRatio s.ratio a, s.isOpen⟩, none) := by
        apply hystStep_none
        · intro h; exact absurd h.2 (not_lt.mpr hsm)
        · intro h; rw [hopen] at h; exact Bool.noConfusion h.1
      rw [hystRun_cons, hystRun_cons_fst, hstep]
      simp only [Option.toList_none, List.nil_append]
      exact ih ⟨smoothRatio s.ratio a, s.isOpen⟩ hopen hsm
        (fun b hb => hall b (List.mem_cons_of_mem a hb))

lemma hystRun_closed_count :
    ∀ (xs : List ℚ) (s : HystState), xs.Pairwise (fun a b => a ≤ b) →
      s.isOpen = false → s.ratio ≤ 1.35 →
      ((hystRun s xs).2).count true ≤ 1 := by
  intro xs
  induction xs with
  | nil => intro s _ _ _; simp [hystRun]
  | cons a tl ih =>
      intro s hpair hopen hratio
      obtain ⟨hhd, htl⟩ := List.pairwise_cons.mp hpair
      by_cases hc : 1.35 < smoothRatio s.ratio a
      · -- the Open edge fires here; afterwards the machine stays open
        have ha : (1.35:ℚ) < a := by
          by_contra hle
          exact absurd (smoothRatio_le s.ratio a 1.35 hratio (not_lt.mp hle))
            (not_le.mpr hc)
        have hstep : hystStep s a = (⟨smoothRatio s.ratio a, true⟩, some true) :=
          hystStep_open s a ⟨hopen, hc⟩
        rw [hystRun_cons, hstep]
        have hrest : (hystRun (⟨smoothRatio s.ratio a, true⟩ : HystState) tl).2 = [] := by
          apply hystRun_open_no_events tl _ rfl (by simpa using lt_trans (by norm_num) hc)
          intro b hb
          exact lt_of_lt_of_le ha (hhd b hb)
        simp [hrest]
      · have hstep : hystStep s a = (⟨smoothRatio s.ratio a, s.isOpen⟩, none) := by
          apply hystStep_none
          · intro h; exact hc h.2
          · intro h; rw [hopen] at h; exact Bool.noConfusion h.1
        rw [hystRun_cons, hstep]
        simp only [Option.toList_none, List.nil_append]
        exact ih ⟨smoothRatio s.ratio a, s.isOpen⟩ htl hopen (not_lt.mp hc)

lemma hystRun_alternates :
    ∀ (xs : List ℚ) (s : HystState),
      List.Chain' (fun a b => a ≠ b) (hystRun s xs).2 ∧
      ∀ e, ((hystRun s xs).2).head? = some e → e = !s.isOpen := by
  intro xs
  induction xs with
  | nil => intro s; exact ⟨List.chain'_nil, by intro e h; simp [hystRun] at h⟩
  | cons a tl ih =>
      intro s
      by_cases h1 : s.isOpen = false ∧ 1.35 < smoothRatio s.ratio a
      · have hstep : hystStep s a = (⟨smoothRatio s.ratio a, true⟩, some true) :=
          hystStep_open s a h1
        obtain ⟨ihc, ihh⟩ := ih (⟨smoothRatio s.ratio a, true⟩ : HystState)
        rw [hystRun_cons, hstep]
        constructor
        · apply List.chain'_cons'.mpr
          refine ⟨?_, ihc⟩
          intro y hy
          rw [ihh y hy]
          simp
        · intro e he
          simp only [Option.toList_some, List.singleton_append, List.head?_cons,
            Option.some.injEq] at he
          rw [← he, h1.1]
          rfl
      · by_cases h2 : s.isOpen = true ∧ smoothRatio s.ratio a < 1.25
        · have hstep : hystStep s a = (⟨smoothRatio s.ratio a, false⟩, some false) := by
            unfold hystStep
            rw [if_neg h1, if_pos h2]
          obtain ⟨ihc, ihh⟩ := ih (⟨smoothRatio s.ratio a, false⟩ : HystState)
          rw [hystRun_cons, hstep]
          constructor
          · apply List.chain'_cons'.mpr
            refine ⟨?_, ihc⟩
            intro y hy
            rw [ihh y hy]
            simp
          · intro e he
            simp only [Option.toList_some, List.singleton_append, List.head?_cons,
              Option.some.injEq] at he
            rw [← he, h2.1]
            rfl
        · have hstep : hystStep s a = (⟨smoothRatio s.ratio a, s.isOpen⟩, none) :=
            hystStep_none s a h1 h2
          obtain ⟨ihc, ihh⟩ := ih (⟨smoothRatio s.ratio a, s.isOpen⟩ : HystState)
          rw [hystRun_cons, hstep]
          exact ⟨ihc, ihh⟩

/-! ## Claim theorems -/

/-- C1 (counterexample): with `current = target` already (here both `0`),
`deltaTime = 1/8 > 0` and `lambda * deltaTime = 1/2 ≤ 1`, the distance to
the target does not strictly decrease at the step: it stays `0`.  The
claim as stated quantifies over every current position, including
`current = target`. -/
theorem C1_counterexample :
    (0:ℝ) < 1/8 ∧ dampFactor (1/8) ≤ 1 ∧
    ¬ |dampIter 0 (dampFactor (1/8)) 0 1 - 0| <
        |dampIter 0 (dampFactor (1/8)) 0 0 - 0| := by
  refine ⟨by norm_num, by norm_num [dampFactor], ?_⟩
  have h1 : dampIter 0 (dampFactor (1/8)) 0 1 = 0 := by
    show dampStep (dampIter 0 (dampFactor (1/8)) 0 0) 0 (dampFactor (1/8)) = 0
    norm_num [dampIter, dampStep]
  have h0 : dampIter 0 (dampFactor (1/8)) 0 0 = 0 := rfl
  rw [h0, h1]
  simp

/-- C1 (amended): for every target `t`, start `c` and per-frame
`deltaTime` `δ` with `0 < δ` and `lambda * deltaTime = 4 * δ ≤ 1`,
repeated application of the damped update makes `|current - target|`
strictly decrease at every step at which `current ≠ target`, makes it
tend to `0` in the limit, and never overshoots: the sign of
`target - current` never flips. -/
theorem C1_damped_contraction (t c δ : ℝ) (hδ : 0 < δ)
    (h1 : dampFactor δ ≤ 1) :
    (∀ n, dampIter t (dampFactor δ) c n ≠ t →
      |dampIter t (dampFactor δ) c (n + 1) - t| <
        |dampIter t (dampFactor δ) c n - t|) ∧
    Filter.Tendsto (fun n => |dampIter t (dampFactor δ) c n - t|)
      Filter.atTop (nhds 0) ∧
    ∀ n, 0 ≤ (t - dampIter t (dampFactor δ) c (n + 1)) *
      (t - dampIter t (dampFactor δ) c n) := by
  have hf0 : 0 < dampFactor δ := by unfold dampFactor; linarith
  have hf1 : dampFactor δ ≤ 1 := h1
  set f := dampFactor δ with hfdef
  refine ⟨?_, ?_, ?_⟩
  · intro n hne
    have hsucc : dampIter t f c (n + 1) - t = (1 - f) * (dampIter t f c n - t) :=
      dampStep_sub (dampIter t f c n) t f
    rw [hsucc, abs_mul]
    have habs : 0 < |dampIter t f c n - t| := abs_pos.mpr (sub_ne_zero.mpr hne)
    have h1f : |1 - f| < 1 := by rw [abs_lt]; constructor <;> linarith
    have := mul_lt_mul_of_pos_right h1f habs
    simpa using this
  · have habs : ∀ n, |dampIter t f c n - t| = (1 - f) ^ n * |c - t| := by
      intro n
      rw [dampIter_sub, abs_mul, abs_pow, abs_of_nonneg (by linarith : (0:ℝ) ≤ 1 - f)]
    simp only [habs]
    have h0 : Filter.Tendsto (fun n : ℕ => (1 - f) ^ n) Filter.atTop (nhds 0) :=
      tendsto_pow_atTop_nhds_zero_of_lt_one (by linarith) (by linarith)
    have := h0.mul_const |c - t|
    simpa using this
  · intro n
    have hsucc : t - dampIter t f c (n + 1) = (1 - f) * (t - dampIter t f c n) := by
      show t - dampStep (dampIter t f c n) t f = _
      unfold dampStep; ring
    rw [hsucc]
    nlinarith [sq_nonneg (t - dampIter t f c n)]

/-- C1 (witness): the amended theorem instantiated at `t = 1`, `c = 0`,
`δ = 1/8`. -/
theorem C1_witness :
    ((0:ℝ) < 1/8 ∧ dampFactor (1/8) ≤ 1) ∧
    ((∀ n, dampIter 1 (dampFactor (1/8)) 0 n ≠ 1 →
      |dampIter 1 (dampFactor (1/8)) 0 (n + 1) - 1| <
        |dampIter 1 (dampFactor (1/8)) 0 n - 1|) ∧
    Filter.Tendsto (fun n => |dampIter 1 (dampFactor (1/8)) 0 n - 1|)
      Filter.atTop (nhds 0) ∧
    ∀ n, 0 ≤ (1 - dampIter 1 (dampFactor (1/8)) 0 (n + 1)) *
      (1 - dampIter 1 (dampFactor (1/8)) 0 n)) :=
  ⟨⟨by norm_num, by norm_num [dampFactor]⟩,
   C1_damped_contraction 1 0 (1/8) (by norm_num) (by norm_num [dampFactor])⟩

/-- C2 (counterexample): at `deltaTime = 1/2` the source step from
`current = 0` toward `target = 1` gives `0 + (1 - 0) * (4 * (1/2)) = 2`,
while the claimed formula with the `min(1, ·)` clamp gives `1`: the code
performs no clamping. -/
theorem C2_counterexample :
    dampStep 0 1 (dampFactor (1/2)) = 2 ∧ specDampStep 0 1 (1/2) = 1 ∧
    dampStep 0 1 (dampFactor (1/2)) ≠ specDampStep 0 1 (1/2) := by
  refine ⟨by norm_num [dampStep, dampFactor], ?_, ?_⟩ <;>
    norm_num [dampStep, dampFactor, specDampStep, min_def]

/-- C2 (amended): each frame, instance coordinate `i` of the population
is updated by `current += (target - current) * (lambda * deltaTime)` with
`lambda = 4.0` per second and no clamping, where the active target buffer
is the tree targets in Tree mode and the exploded targets in Exploded
mode. -/
theorem C2_frame_update (mode : InteractionState)
    (tree explode cur : List ℝ) (δ : ℝ) (i : ℕ) (a t : ℝ)
    (ha : cur[i]? = some a)
    (ht : (activeTargets mode tree explode)[i]? = some t) :
    (frameUpdate mode tree explode cur δ)[i]? = some (a + (t - a) * (4 * δ)) ∧
    activeTargets InteractionState.Tree tree explode = tree ∧
    activeTargets InteractionState.Exploded tree explode = explode := by
  refine ⟨?_, rfl, rfl⟩
  have h := zipWith_getElem? (fun c t => dampStep c t (dampFactor δ)) cur
    (activeTargets mode tree explode) i a t ha ht
  simpa [dampStep, dampFactor] using h

/-- C2 (witness): the amended theorem at a one-instance population,
`mode = Tree`, `current = [0]`, `tree = [1]`, `explode = [2]`,
`δ = 1`. -/
theorem C2_witness :
    (frameUpdate InteractionState.Tree [1] [2] [0] 1)[0]? =
      some (0 + (1 - 0) * (4 * 1)) ∧
    activeTargets InteractionState.Tree [1] [2] = [1] ∧
    activeTargets InteractionState.Exploded [1] [2] = [2] :=
  C2_frame_update InteractionState.Tree [1] [2] [0] 1 0 0 1 rfl rfl

/-- C3 (counterexample): the raw ratio sequence `[1.3, 1.4]` is
monotonically increasing and crosses `1.35` (it starts below and ends
above), yet the tracker emits zero events, not exactly one Open event:
the `alpha = 0.25` smoothing keeps the smoothed ratio
(`1.225`, then `1.26875`) below the `1.35` threshold. -/
theorem C3_counterexample :
    ((1.3:ℚ) ≤ 1.4 ∧ (1.3:ℚ) < 1.35 ∧ (1.35:ℚ) < 1.4) ∧
    hystEvents [1.3, 1.4] = [] ∧ (hystEvents [1.3, 1.4]).count true ≠ 1 := by
  have e : hystEvents [1.3, 1.4] = [] := by
    norm_num [hystEvents, hystRun, hystStep, hystInit, smoothRatio]
  exact ⟨by norm_num, e, by rw [e]; simp⟩

/-- C3 (amended): feeding a monotonically increasing raw ratio sequence
emits at most one Open event (the smoothed ratio, not the raw one, must
exceed `1.35` for the event to fire); a sequence staying within
`[1.25, 1.35]` emits zero events; and in general a step emits Open iff
the machine is Closed and the smoothed ratio exceeds `1.35`, emits Close
iff it is Open and the smoothed ratio drops below `1.25`, and emits
nothing otherwise. -/
theorem C3_hysteresis (xs ys : List ℚ) (s : HystState) (r : ℚ)
    (hmono : xs.Pairwise (fun a b => a ≤ b))
    (hband : ∀ a ∈ ys, (1.25:ℚ) ≤ a ∧ a ≤ 1.35) :
    (hystEvents xs).count true ≤ 1 ∧
    hystEvents ys = [] ∧
    ((hystStep s r).2 = some true ↔
      s.isOpen = false ∧ 1.35 < smoothRatio s.ratio r) ∧
    ((hystStep s r).2 = some false ↔
      s.isOpen = true ∧ smoothRatio s.ratio r < 1.25) := by
  refine ⟨?_, ?_, ?_, ?_⟩
  · exact hystRun_closed_count xs hystInit hmono rfl (by norm_num [hystInit])
  · exact (hystRun_closed_no_events ys hystInit rfl (by norm_num [hystInit])
      (fun a ha => (hband a ha).2)).1
  · constructor
    · intro h
      by_cases h1 : s.isOpen = false ∧ 1.35 < smoothRatio s.ratio r
      · exact h1
      · by_cases h2 : s.isOpen = true ∧ smoothRatio s.ratio r < 1.25
        · have hcl : hystStep s r = (⟨smoothRatio s.ratio r, false⟩, some false) := by
            unfold hystStep
            rw [if_neg h1, if_pos h2]
          rw [hcl] at h
          exact absurd h (by simp)
        · rw [hystStep_none s r h1 h2] at h
          exact Option.noConfusion h
    · intro h
      rw [hystStep_open s r h]
  · constructor
    · intro h
      by_cases h1 : s.isOpen = false ∧ 1.35 < smoothRatio s.ratio r
      · rw [hystStep_open s r h1] at h
        exact absurd h (by simp)
      · by_cases h2 : s.isOpen = true ∧ smoothRatio s.ratio r < 1.25
        · exact h2
        · rw [hystStep_none s r h1 h2] at h
          exact Option.noConfusion h
    · intro h
      have h1 : ¬(s.isOpen = false ∧ 1.35 < smoothRatio s.ratio r) := by
        intro hc; rw [h.1] at hc; exact Bool.noConfusion hc.1
      unfold hystStep
      rw [if_neg h1, if_pos h]

/-- C3 (witness): the amended theorem instantiated at the monotone
sequence `[1.3, 1.4]`, the in-band sequence `[1.3]`, the initial state
and raw ratio `1`. -/
theorem C3_witness :
    (hystEvents [1.3, 1.4]).count true ≤ 1 ∧
    hystEvents [1.3] = [] ∧
    ((hystStep hystInit 1).2 = some true ↔
      hystInit.isOpen = false ∧ 1.35 < smoothRatio hystInit.ratio 1) ∧
    ((hystStep hystInit 1).2 = some false ↔
      hystInit.isOpen = true ∧ smoothRatio hystInit.ratio 1 < 1.25) :=
  C3_hysteresis [1.3, 1.4] [1.3] hystInit 1
    (List.Pairwise.cons
      (by intro b hb; rw [List.mem_singleton] at hb; rw [hb]; norm_num)
      (List.pairwise_singleton _ _))
    (by intro a ha; rw [List.mem_singleton] at ha; rw [ha]
        exact ⟨by norm_num, by norm_num⟩)

/-- C10: for every raw ratio input sequence, the emitted open/closed
events strictly alternate: no two consecutive emitted events are equal
(an Open is followed only by a Close and vice versa). -/
theorem C10_events_alternate (rs : List ℚ) :
    List.Chain' (fun a b => a ≠ b) (hystEvents rs) :=
  (hystRun_alternates rs hystInit).1

/-- C4: the wrist-x to rotation-speed mapping returns `0` on the whole
dead zone `[0.45, 0.55]`, `(x - 0.55) * 6` right of it, and
`-((0.45 - x) * 6)` left of it; in particular `0.5 ↦ 0`, `0.8 ↦ 1.5`
and `0.2 ↦ -1.5`. -/
theorem C4_wrist_mapping (x : ℚ) (hlo : 0.45 ≤ x) (hhi : x ≤ 0.55) :
    handleHandMove x = 0 ∧
    (∀ y : ℚ, 0.55 < y → handleHandMove y = (y - 0.55) * 6.0) ∧
    (∀ y : ℚ, y < 0.45 → handleHandMove y = -((0.45 - y) * 6.0)) ∧
    handleHandMove 0.5 = 0 ∧ handleHandMove 0.8 = 1.5 ∧
    handleHandMove 0.2 = -1.5 := by
  refine ⟨?_, ?_, ?_, ?_, ?_, ?_⟩
  · unfold handleHandMove
    rw [if_neg (by intro h; norm_num at h; linarith),
      if_neg (by intro h; norm_num at h; linarith)]
  · intro y hy
    unfold handleHandMove
    rw [if_neg (by intro h; norm_num at h; linarith),
      if_pos (by norm_num; linarith)]
    norm_num
  · intro y hy
    unfold handleHandMove
    rw [if_pos (by norm_num; linarith)]
    norm_num
  · norm_num [handleHandMove]
  · norm_num [handleHandMove]
  · norm_num [handleHandMove]

/-- C4 (witness): the theorem instantiated at the exact centre
`x = 0.5`. -/
theorem C4_witness :
    handleHandMove 0.5 = 0 ∧
    (∀ y : ℚ, 0.55 < y → handleHandMove y = (y - 0.55) * 6.0) ∧
    (∀ y : ℚ, y < 0.45 → handleHandMove y = -((0.45 - y) * 6.0)) ∧
    handleHandMove 0.5 = 0 ∧ handleHandMove 0.8 = 1.5 ∧
    handleHandMove 0.2 = -1.5 :=
  C4_wrist_mapping 0.5 (by norm_num) (by norm_num)

/-- C5: in Tree mode, when a falling particle's gravity-updated `y`
reaches or drops below its per-particle randomized local ground, it
lands (state set to Landed, `y` clamped to the local ground) iff its
wobbled horizontal position lies within the accumulation radius `4.5`
of the centre; otherwise it is recycled in place by
`resetParticle(..., false)`: it stays Falling and respawns at altitude
at least `30`. -/
theorem C5_snow_landing (p : SnowParticle) (time delta uGround uMelt : ℝ)
    (fresh : SnowRand) (hp : p.landed = false)
    (hg : p.y - p.vy * (delta * 60) ≤ localGround uGround)
    (hu : 0 ≤ fresh.u3) :
    (wobbleX p time * wobbleX p time + wobbleZ p time * wobbleZ p time <
        4.5 * 4.5 →
      (treeStep p time delta uGround uMelt fresh).landed = true ∧
      (treeStep p time delta uGround uMelt fresh).y = localGround uGround) ∧
    (¬ wobbleX p time * wobbleX p time + wobbleZ p time * wobbleZ p time <
        4.5 * 4.5 →
      treeStep p time delta uGround uMelt fresh = resetParticle false fresh ∧
      (treeStep p time delta uGround uMelt fresh).landed = false ∧
      30 ≤ (treeStep p time delta uGround uMelt fresh).y) := by
  have hts : treeStep p time delta uGround uMelt fresh =
      fallStep p time delta uGround fresh := by
    unfold treeStep
    rw [if_pos hp]
  have hy : 30 ≤ (resetParticle false fresh).y := by
    simp only [resetParticle, Bool.false_eq_true, if_false]
    linarith [mul_nonneg hu (by norm_num : (0:ℝ) ≤ 15)]
  constructor
  · intro hin
    rw [hts]
    simp only [fallStep]
    rw [if_pos hg, if_pos hin]
    exact ⟨rfl, rfl⟩
  · intro hout
    rw [hts]
    simp only [fallStep]
    rw [if_pos hg, if_neg hout]
    exact ⟨rfl, rfl, hy⟩

/-- C5 (witness): the theorem at a concrete particle starting at
`(0, -5, 0)` with fall speed `0.01`, at `time = 0`, `delta = 1/60`,
ground draw `0`, melt draw `1` and zero fresh draws. -/
theorem C5_witness :
    (wobbleX ⟨0, -5, 0, 1/100, 0, false⟩ 0 * wobbleX ⟨0, -5, 0, 1/100, 0, false⟩ 0 +
        wobbleZ ⟨0, -5, 0, 1/100, 0, false⟩ 0 * wobbleZ ⟨0, -5, 0, 1/100, 0, false⟩ 0 <
        4.5 * 4.5 →
      (treeStep ⟨0, -5, 0, 1/100, 0, false⟩ 0 (1/60) 0 1 ⟨0, 0, 0, 0, 0⟩).landed = true ∧
      (treeStep ⟨0, -5, 0, 1/100, 0, false⟩ 0 (1/60) 0 1 ⟨0, 0, 0, 0, 0⟩).y =
        localGround 0) ∧
    (¬ wobbleX ⟨0, -5, 0, 1/100, 0, false⟩ 0 * wobbleX ⟨0, -5, 0, 1/100, 0, false⟩ 0 +
        wobbleZ ⟨0, -5, 0, 1/100, 0, false⟩ 0 * wobbleZ ⟨0, -5, 0, 1/100, 0, false⟩ 0 <
        4.5 * 4.5 →
      treeStep ⟨0, -5, 0, 1/100, 0, false⟩ 0 (1/60) 0 1 ⟨0, 0, 0, 0, 0⟩ =
        resetParticle false ⟨0, 0, 0, 0, 0⟩ ∧
      (treeStep ⟨0, -5, 0, 1/100, 0, false⟩ 0 (1/60) 0 1 ⟨0, 0, 0, 0, 0⟩).landed = false ∧
      30 ≤ (treeStep ⟨0, -5, 0, 1/100, 0, false⟩ 0 (1/60) 0 1 ⟨0, 0, 0, 0, 0⟩).y) :=
  C5_snow_landing ⟨0, -5, 0, 1/100, 0, false⟩ 0 (1/60) 0 1 ⟨0, 0, 0, 0, 0⟩
    rfl (by norm_num [localGround]) le_rfl

/-- C6: after the mode transitions from Exploded back to Tree, the
particle buffer keeps its length, every particle is Falling at altitude
at least `30`, and the number of Landed particles is zero. -/
theorem C6_mode_transition_reset (prevMode mode : InteractionState)
    (particles : List SnowParticle) (us : ℕ → SnowRand)
    (hprev : prevMode = InteractionState.Exploded)
    (hmode : mode = InteractionState.Tree)
    (hu : ∀ i, 0 ≤ (us i).u3) :
    (modeTransition prevMode mode particles us).length = particles.length ∧
    (∀ q ∈ modeTransition prevMode mode particles us,
      q.landed = false ∧ 30 ≤ q.y) ∧
    (modeTransition prevMode mode particles us).countP
      (fun q => q.landed) = 0 := by
  subst hprev
  subst hmode
  have hmt : modeTransition InteractionState.Exploded InteractionState.Tree
      particles us =
      (List.range particles.length).map fun i => resetParticle false (us i) := by
    unfold modeTransition
    rw [if_pos ⟨rfl, rfl⟩]
  have hq : ∀ q ∈ (List.range particles.length).map
      (fun i => resetParticle false (us i)), q.landed = false ∧ 30 ≤ q.y := by
    intro q hqm
    rw [List.mem_map] at hqm
    obtain ⟨i, -, rfl⟩ := hqm
    refine ⟨rfl, ?_⟩
    simp only [resetParticle, Bool.false_eq_true, if_false]
    linarith [mul_nonneg (hu i) (by norm_num : (0:ℝ) ≤ 15)]
  rw [hmt]
  refine ⟨by simp, hq, ?_⟩
  rw [List.countP_eq_zero]
  intro q hqm
  rw [(hq q hqm).1]
  simp

/-- C6 (witness): the theorem at a one-particle buffer holding a Landed
particle, with zero draws. -/
theorem C6_witness :
    (modeTransition InteractionState.Exploded InteractionState.Tree
      [⟨0, 0, 0, 0, 0, true⟩] (fun _ => ⟨0, 0, 0, 0, 0⟩)).length =
      [(⟨0, 0, 0, 0, 0, true⟩ : SnowParticle)].length ∧
    (∀ q ∈ modeTransition InteractionState.Exploded InteractionState.Tree
      [⟨0, 0, 0, 0, 0, true⟩] (fun _ => ⟨0, 0, 0, 0, 0⟩),
      q.landed = false ∧ 30 ≤ q.y) ∧
    (modeTransition InteractionState.Exploded InteractionState.Tree
      [⟨0, 0, 0, 0, 0, true⟩] (fun _ => ⟨0, 0, 0, 0, 0⟩)).countP
      (fun q => q.landed) = 0 :=
  C6_mode_transition_reset InteractionState.Exploded InteractionState.Tree
    [⟨0, 0, 0, 0, 0, true⟩] (fun _ => ⟨0, 0, 0, 0, 0⟩) rfl rfl
    (fun _ => le_rfl)

/-- C7: for every population size `n`, the placement generator produces
exactly `n` positions in the tree buffer and exactly `n` positions in the
explosion buffer, and for `n = 0` both buffers are empty (the placement
formulas, which divide by `count`, are instantiated only for `i < n`,
hence never for `n = 0`). -/
theorem C7_placement_counts (n : ℕ) (jx jz : ℕ → ℚ) (uR : ℕ → ℝ) :
    (treeTargets n jx jz).length = n ∧ (explodeTargets n uR).length = n ∧
    treeTargets 0 jx jz = [] ∧ explodeTargets 0 uR = [] := by
  refine ⟨?_, ?_, ?_, ?_⟩ <;> simp [treeTargets, explodeTargets]

/-- C8: the cone radius of the tree placement is monotonically
non-increasing in the index-derived height (`i ≤ j` gives
`height i ≤ height j` and `radius j ≤ radius i`), and the per-axis
jitter `(u - 0.5) * 0.3` is bounded by `0.3` for every draw
`u ∈ [0, 1]`. -/
theorem C8_radius_monotone (count i j : ℕ) (hij : i ≤ j) :
    (treeY count i ≤ treeY count j ∧
      treeRadius count j ≤ treeRadius count i) ∧
    ∀ u : ℚ, 0 ≤ u → u ≤ 1 → |treeJitter u| ≤ 0.3 := by
  have hdiv : (i:ℚ) / (count:ℚ) ≤ (j:ℚ) / (count:ℚ) :=
    div_le_div_of_nonneg_right (by exact_mod_cast hij) (Nat.cast_nonneg count)
  refine ⟨⟨?_, ?_⟩, ?_⟩
  · unfold treeY
    linarith
  · unfold treeRadius treeLevel treeY
    linarith
  · intro u h0 h1
    unfold treeJitter
    rw [abs_le]
    constructor <;> nlinarith

/-- C9: the Exploded-mode radial push is total: the normalizing length
`sqrt(x*x + y*y + z*z) + 0.01` is strictly positive for every particle
position, and for a particle exactly at the origin the update is
well-defined, moving it only by the turbulence terms and forcing the
state back to Falling. -/
theorem C9_explosion_epsilon (p : SnowParticle) (delta t1 t2 t3 : ℝ)
    (hx : p.x = 0) (hy : p.y = 0) (hz : p.z = 0) :
    (∀ q : SnowParticle,
      (0:ℝ) < Real.sqrt (q.x * q.x + q.y * q.y + q.z * q.z) + 0.01) ∧
    (explodedStep p delta t1 t2 t3).x = p.x + (t1 - 0.5) * 0.2 ∧
    (explodedStep p delta t1 t2 t3).y = p.y + (t2 - 0.5) * 0.2 ∧
    (explodedStep p delta t1 t2 t3).z = p.z + (t3 - 0.5) * 0.2 ∧
    (explodedStep p delta t1 t2 t3).landed = false := by
  refine ⟨?_, ?_, ?_, ?_, rfl⟩
  · intro q
    have h := Real.sqrt_nonneg (q.x * q.x + q.y * q.y + q.z * q.z)
    linarith
  all_goals simp [explodedStep, hx, hy, hz]

/-- C9 (witness): the theorem at the origin particle. -/
theorem C9_witness :
    (∀ q : SnowParticle,
      (0:ℝ) < Real.sqrt (q.x * q.x + q.y * q.y + q.z * q.z) + 0.01) ∧
    (explodedStep ⟨0, 0, 0, 0, 0, true⟩ 1 0 0 0).x = 0 + (0 - 0.5) * 0.2 ∧
    (explodedStep ⟨0, 0, 0, 0, 0, true⟩ 1 0 0 0).y = 0 + (0 - 0.5) * 0.2 ∧
    (explodedStep ⟨0, 0, 0, 0, 0, true⟩ 1 0 0 0).z = 0 + (0 - 0.5) * 0.2 ∧
    (explodedStep ⟨0, 0, 0, 0, 0, true⟩ 1 0 0 0).landed = false :=
  C9_explosion_epsilon ⟨0, 0, 0, 0, 0, true⟩ 1 0 0 0 rfl rfl rfl

/-- C8 (witness): the theorem at `count = 10`, `i = 1`, `j = 2`. -/
theorem C8_witness :
    (treeY 10 1 ≤ treeY 10 2 ∧ treeRadius 10 2 ≤ treeRadius 10 1) ∧
    ∀ u : ℚ, 0 ≤ u → u ≤ 1 → |treeJitter u| ≤ 0.3 :=
  C8_radius_monotone 10 1 2 (by norm_num)

end ChristmasTree
